import Mathlib

/-
Verification development for the build.yaml code-generation synchronizer
(src/src/main.rs). The Rust program is shallowly embedded: pure string and
path manipulation becomes Lean functions on String and List Char; the
filesystem walk, the external YAML parser and serializer, and external
process execution become explicit environment data (a walk listing, parser
and serializer oracles, an exec oracle); the control flow of main and its
helpers becomes functions producing a result together with an event trace.
The build platform is unix, so std.path.MAIN_SEPARATOR is the forward
slash throughout.
-/

namespace CodegenOptimizer

/-! ## Character-list string primitives

Rust str.find, str.contains and slicing are byte-based; all patterns used
by the program are ASCII, so indexing by character coincides with indexing
by byte at every call site, and we model strings as their character lists.
-/

/-- Index (in characters) of the first occurrence of pattern inside a
character list, mirroring Rust str.find. An empty pattern is found at
index 0, as in Rust. -/
def subFind (s pat : List Char) : Option Nat :=
  match s with
  | [] => if pat.isEmpty then some 0 else none
  | _ :: rest =>
    if pat.isPrefixOf s then some 0
    else (subFind rest pat).map (· + 1)

/-- Whether pattern occurs inside the character list, mirroring Rust
str.contains. -/
def containsSub (s pat : List Char) : Bool :=
  (subFind s pat).isSome

/-- Drop leading and trailing whitespace, mirroring Rust str.trim on the
ASCII-whitespace contents the program handles. -/
def trimChars (l : List Char) : List Char :=
  ((l.dropWhile Char.isWhitespace).reverse.dropWhile Char.isWhitespace).reverse

/-! ## Lexicographic string order

Rust sorts a Vec of Strings by byte-lexicographic order; on valid UTF-8
byte order agrees with code-point order, which is the order implemented
here character by character. -/

/-- Lexicographic less-or-equal on character lists, by code points. -/
def lexLe : List Char → List Char → Bool
  | [], _ => true
  | _ :: _, [] => false
  | a :: as, b :: bs => if a = b then lexLe as bs else decide (a < b)

/-- Lexicographic less-or-equal on strings, the order used by Rust
Vec.sort over String. -/
def strLe (a b : String) : Bool :=
  lexLe a.data b.data

/-- Propositional form of the string order. -/
def strLeP (a b : String) : Prop :=
  strLe a b = true

instance : DecidableRel strLeP := fun a b => by
  unfold strLeP; infer_instance

/-- Model of Vec.sort on Vec of String: any comparison sort agrees with
the unique sorted permutation for a total antisymmetric order, so we use
insertion sort. -/
def sortStrings (l : List String) : List String :=
  List.insertionSort strLeP l

/-! ## Path primitives

WalkDir produces paths joined by single forward slashes without trailing
separators; parent and join below mirror Path.parent (unwrapped to the
empty path when absent) and Path.join on such paths. -/

/-- Index of the last forward slash of a character list, if any. -/
def lastSlashIdx : List Char → Option Nat
  | [] => none
  | c :: rest =>
    match lastSlashIdx rest with
    | some i => some (i + 1)
    | none => if c = '/' then some 0 else none

/-- Rust file_path.parent().unwrap_or(Path.new of the empty string):
everything before the last slash, the root when the only slash leads, and
the empty path when there is no slash. -/
def pathParent (p : String) : String :=
  match lastSlashIdx p.data with
  | none => ""
  | some 0 => "/"
  | some i => String.mk (p.data.take i)

/-- Rust Path.join: an absolute right operand replaces the left, joining
onto the empty path yields the right operand, and otherwise a single
separator is inserted. -/
def pathJoin (p q : String) : String :=
  if q.startsWith "/" then q
  else if p = "" then q
  else if p.endsWith "/" then p ++ q
  else p ++ "/" ++ q

/-! ## The redirect resolver: process_part_of (main.rs lines 173 to 184) -/

/-- Marker checked by the outer contains test in the source. -/
def partOfBare : List Char :=
  ['p', 'a', 'r', 't', ' ', 'o', 'f']

/-- Marker searched for extraction, with its trailing space. -/
def partOfSpaced : List Char :=
  ['p', 'a', 'r', 't', ' ', 'o', 'f', ' ']

/-- Embedding of BuildYamlGenerator.process_part_of: when the content
contains a part-of clause terminated by a semicolon, redirect to the
sibling path named by the clause, trimmed; otherwise keep the path. -/
def process_part_of (filePath content : String) : String :=
  if containsSub content.data partOfBare then
    match subFind content.data partOfSpaced with
    | some idx =>
      match subFind (content.data.drop (idx + partOfSpaced.length)) [';'] with
      | some endIdx =>
        pathJoin (pathParent filePath)
          (String.mk (trimChars ((content.data.drop (idx + partOfSpaced.length)).take endIdx)))
      | none => filePath
    | none => filePath
  else filePath

/-- Resolver exactly as the specification words it (section 4.3): find the
fragment-declaration marker, extract the name up to the next semicolon,
trim it, and return the sibling path; on a missing marker or missing
terminating semicolon return the path unchanged. Stated without the outer
redundant containment test present in the source. -/
def resolveSpec (filePath content : String) : String :=
  match subFind content.data partOfSpaced with
  | some idx =>
    match subFind (content.data.drop (idx + partOfSpaced.length)) [';'] with
    | some endIdx =>
      pathJoin (pathParent filePath)
        (String.mk (trimChars ((content.data.drop (idx + partOfSpaced.length)).take endIdx)))
    | none => filePath
  | none => filePath

/-! ## Text replacement: Rust str.replace

Rust str.replace scans left to right replacing non-overlapping
occurrences. The fuel argument (initialized to the length of the subject)
makes the skip-ahead recursion structural; one unit of fuel is spent per
step and every step consumes at least one character when the pattern is
nonempty, so the fuel never runs out at the call sites below. An empty
pattern never occurs at a call site (the separator patterns and quote
pattern are single characters and the prefix pattern ends in the
separator), so the empty-pattern guard returning the subject unchanged is
never exercised. -/

def replaceAllFuel : Nat → List Char → List Char → List Char → List Char
  | 0, s, _, _ => s
  | _ + 1, [], _, _ => []
  | n + 1, c :: rest, pat, rep =>
    if pat.isPrefixOf (c :: rest) then
      rep ++ replaceAllFuel n ((c :: rest).drop pat.length) pat rep
    else
      c :: replaceAllFuel n rest pat rep

/-- Replace all non-overlapping occurrences of pat by to, scanning left to
right, mirroring Rust str.replace. -/
def replaceAll (s pat rep : List Char) : List Char :=
  if pat = [] then s else replaceAllFuel s.length s pat rep

/-- The single-quote character stripped by the formatter. -/
def squote : Char := Char.ofNat 39

/-- Embedding of the pure text transformation inside
BuildYamlGenerator.format_build_yaml (main.rs lines 186 to 198): strip
single quotes, strip every occurrence of the working directory followed by
the separator, then replace each separator by a forward slash (an identity
on the unix build, where the separator already is the forward slash). -/
def format_content (workingDir content : String) : String :=
  String.mk
    (replaceAll
      (replaceAll (replaceAll content.data [squote] [])
        (workingDir.data ++ ['/']) [])
      ['/'] ['/'])

/-! ## Pattern registry (main.rs lines 67 to 118) -/

/-- The fixed annotation kinds. -/
inductive AnnotationType where
  | copyWith
  | jsonSerializable
  | hive
deriving DecidableEq

/-- Detection rule: the literal annotation marker plus the builder key it
targets. Each source regex has the shape marker, then any amount of
whitespace, then an opening parenthesis; the marker field holds the
literal part and regexMatch below implements that shape. -/
structure AnnotationPattern where
  marker : String
  builder_key : String
deriving DecidableEq

/-- Embedding of PatternRegistry.get_patterns as an association list over
the three kinds. The source HashMap has unspecified iteration order; the
three entries address pairwise distinct builder keys, so every use below
is order-insensitive. -/
def get_patterns : List (AnnotationType × AnnotationPattern) :=
  [(.copyWith, ⟨"@CopyWith", "copy_with_extension_gen"⟩),
   (.jsonSerializable, ⟨"@JsonSerializable", "json_serializable"⟩),
   (.hive, ⟨"@HiveType", "hive_generator"⟩)]

/-- Embedding of PatternRegistry.get_pattern. -/
def get_pattern (t : AnnotationType) : Option AnnotationPattern :=
  (get_patterns.find? (fun p => p.1 = t)).map (·.2)

/-- After the literal marker: any run of whitespace followed by an opening
parenthesis, the tail of each detection regex. -/
def wsThenParen : List Char → Bool
  | [] => false
  | c :: rest =>
    if c = '(' then true
    else if c.isWhitespace then wsThenParen rest
    else false

/-- Match of the detection regex anywhere in the content: at some
position the literal marker occurs, followed by optional whitespace and
an opening parenthesis. -/
def regexMatch (marker : List Char) : List Char → Bool
  | [] => false
  | c :: rest =>
    (marker.isPrefixOf (c :: rest) && wsThenParen ((c :: rest).drop marker.length))
      || regexMatch marker rest

/-! ## File scanner (main.rs lines 140 to 171)

A WalkDir traversal is modeled as the list of items its iterator yields:
either an iteration failure carrying a message, or an entry carrying its
path together with the outcome that read_to_string would produce on it
(reading a directory or an unreadable file yields an error). An
untraversable root directory yields a traversal consisting only of
iteration failures. -/

deriving instance DecidableEq for Except

inductive WalkEntry where
  | iterErr (msg : String)
  | file (path : String) (read : Except String String)
deriving DecidableEq

/-- The characters after the last dot of the list, if it has a dot. -/
def lastDotSuffix : List Char → Option (List Char)
  | [] => none
  | c :: rest =>
    match lastDotSuffix rest with
    | some s => some s
    | none => if c = '.' then some rest else none

/-- Rust Path.extension comparison with the dart literal: the final path
component has a dot after a nonempty stem and the part after the last
such dot is dart. A leading dot of the file name belongs to the stem. -/
def extensionOf (fileName : List Char) : Option (List Char) :=
  match fileName with
  | [] => none
  | _ :: rest => lastDotSuffix rest

/-- File-name component: the characters after the last slash. -/
def fileNameOf (p : List Char) : List Char :=
  match lastSlashIdx p with
  | none => p
  | some i => p.drop (i + 1)

/-- The extension filter of the scanner loop. -/
def hasDartExt (p : String) : Bool :=
  extensionOf (fileNameOf p.data) = some ['d', 'a', 'r', 't']

/-- Per-entry contribution to files_with_annotation: iteration failures
are discarded by the filter_map over e.ok(), non-dart entries and entries
whose read fails contribute nothing, and matching dart entries contribute
their redirect-resolved path. -/
def entryHit (marker : List Char) : WalkEntry → Option String
  | .iterErr _ => none
  | .file p r =>
    if hasDartExt p then
      match r with
      | .ok content =>
        if regexMatch marker content.data then some (process_part_of p content)
        else none
      | .error _ => none
    else none

/-- Resolved paths pushed during the traversal, in traversal order. -/
def scanFiles (marker : List Char) (walk : List WalkEntry) : List String :=
  walk.filterMap (entryHit marker)

/-- Warning line emitted for a dart entry whose read failed. -/
def warnMsg (p e : String) : String :=
  "Error processing file " ++ p ++ ": " ++ e

/-- Warnings logged during one traversal, in traversal order: one per
dart-extension entry whose read failed, nothing for any other entry and
nothing for iteration failures. -/
def scanWarnings (walk : List WalkEntry) : List String :=
  walk.filterMap (fun e =>
    match e with
    | .iterErr _ => none
    | .file p r =>
      if hasDartExt p then
        match r with
        | .ok _ => none
        | .error e => some (warnMsg p e)
      else none)

/-- Wrap a path in double quotes, as the source does before sorting. -/
def quoteStr (s : String) : String :=
  "\"" ++ s ++ "\""

/-- The sorted quoted scan result for a kind over a traversal. -/
def scanSorted (t : AnnotationType) (walk : List WalkEntry) : List String :=
  sortStrings ((scanFiles (match get_pattern t with
    | some r => r.marker.data
    | none => []) walk).map quoteStr)

/-- Embedding of BuildYamlGenerator.find_files_with_annotation: look the
rule up (failing for kinds outside the registry, which cannot happen for
the three constructors), collect resolved paths of matching readable dart
entries, quote them, sort them, and return them. -/
def find_files_with_annotation (t : AnnotationType) (walk : List WalkEntry) :
    Except String (List String) :=
  match get_pattern t with
  | none => .error "Unsupported annotation type"
  | some rule => .ok (sortStrings ((scanFiles rule.marker.data walk).map quoteStr))

/-! ## YAML document model and the synchronizer update
(main.rs lines 200 to 233)

serde_yaml Values are modeled as a tree of scalars, sequences and
mappings. Mapping keys are modeled as strings: the navigation below only
ever indexes by string keys, and a non-string key can never be addressed
by it, so entries under non-string keys behave exactly like entries under
unaddressed string keys. Numbers are kept as their textual form; no claim
depends on numeric semantics. Mappings preserve insertion order, as
serde_yaml mappings do. -/

inductive YVal where
  | null
  | bool (b : Bool)
  | num (lit : String)
  | str (s : String)
  | seq (xs : List YVal)
  | map (kvs : List (String × YVal))

/-- First binding of the key in a mapping, mirroring Value.get on
mappings. -/
def lookupKey : List (String × YVal) → String → Option YVal
  | [], _ => none
  | (k, v) :: rest, key => if k = key then some v else lookupKey rest key

/-- Replace the value of the first binding of the key, keeping order. -/
def updFirst (kvs : List (String × YVal)) (key : String) (nv : YVal) :
    List (String × YVal) :=
  match kvs with
  | [] => []
  | (k, v) :: rest =>
    if k = key then (k, nv) :: rest else (k, v) :: updFirst rest key nv

/-- Chained Value.get navigation along a key path. -/
def getPath : YVal → List String → Option YVal
  | v, [] => some v
  | .map kvs, k :: rest =>
    match lookupKey kvs k with
    | some child => getPath child rest
    | none => none
  | _, _ :: _ => none

/-- Functional rendering of the chained get_mut navigation followed by
assignment: when every step of the path resolves, the value at the end of
the path is replaced; the document is returned unchanged as soon as a
step fails (missing key or non-mapping node). -/
def updateAt : List String → YVal → YVal → YVal
  | [], _, nv => nv
  | k :: rest, v, nv =>
    match v with
    | .map kvs =>
      match lookupKey kvs k with
      | some child => .map (updFirst kvs k (updateAt rest child nv))
      | none => v
    | _ => v

/-- The nested field path rewritten for a builder key. -/
def targetPath (key : String) : List String :=
  ["targets", "$default", "builders", key, "generate_for"]

/-- One iteration of the update loop: scan for the kind and, when the
scan succeeded, replace the generate_for list of the builder key; a
failing scan or an absent path segment leaves the document untouched. -/
def updateKindPair (walk : List WalkEntry) (yaml : YVal)
    (p : AnnotationType × AnnotationPattern) : YVal :=
  match find_files_with_annotation p.1 walk with
  | .ok files => updateAt (targetPath p.2.builder_key) yaml (.seq (files.map .str))
  | .error _ => yaml

/-- The full update loop over the registry. The source iterates a HashMap
in unspecified order; the three updates address pairwise distinct
builder keys and commute, so the registry order is used. -/
def update_document (walk : List WalkEntry) (yaml : YVal) : YVal :=
  get_patterns.foldl (updateKindPair walk) yaml

/-! ## Runtime model: environment, events, commands, and main

External effects are modeled by an environment: the resolution of the
flutter executable on PATH, an exec oracle giving the outcome of each
spawned command, the outcome of reading build.yaml, parser and serializer
oracles for serde_yaml, the directory traversal, and the working
directory. A run produces a result and a trace of filesystem and process
events. Log lines (info and error) carry no information the claims need
and are not traced; scan warnings are modeled by scanWarnings above. -/

/-- Outcome of Command.output: a spawn failure whose io error kind is
NotFound, some other spawn failure, or an exit with a success flag, a
rendered status, captured stdout and captured stderr. -/
inductive ExecResult where
  | spawnNotFound
  | spawnErr (msg : String)
  | exited (success : Bool) (statusStr stdout stderr : String)
deriving DecidableEq

/-- Outcome kind of read_to_string on build.yaml. -/
inductive IOErr where
  | notFound
  | other (msg : String)
deriving DecidableEq

/-- The distinguishable error sources of the program, an abstraction of
its boxed error values that keeps every datum a claim mentions. -/
inductive RunError where
  | flutterNotOnPath
  | cmdNotFound (cmd : String)
  | cmdSpawnFailed (cmd msg : String)
  | cmdFailed (cmd : String) (args : List String) (statusStr stderr : String)
  | configNotFound
  | configIoErr (msg : String)
  | configParse (msg : String)
deriving DecidableEq

/-- Traced effects: reading a named file, one recursive directory scan
for a kind, writing a named file with its content, and spawning an
external command. -/
inductive Event where
  | readFileEv (name : String)
  | scanEv (t : AnnotationType)
  | writeFileEv (name : String) (content : String)
  | cmdEv (cmd : String) (args : List String)
deriving DecidableEq

/-- Environment of one run. -/
structure Env where
  flutterPath : Option String
  exec : String → List String → ExecResult
  readBuildYaml : Except IOErr String
  parseYaml : String → Except String YVal
  serializeYaml : YVal → String
  walk : List WalkEntry
  workingDir : String

/-- Recognizer for command events. -/
def isCmdEv : Event → Bool
  | .cmdEv _ _ => true
  | _ => false

/-- Recognizer for scan events. -/
def isScanEv : Event → Bool
  | .scanEv _ => true
  | _ => false

/-- Recognizer for write events, any file. -/
def isWriteEv : Event → Bool
  | .writeFileEv _ _ => true
  | _ => false

/-- The configuration file name. -/
def buildYamlName : String := "build.yaml"

/-- Embedding of run_command (main.rs lines 13 to 43): spawn the command,
mapping a NotFound spawn failure and other spawn failures to their
messages, and mapping a non-success exit status to an error carrying the
rendered status and the captured standard error. -/
def run_command (env : Env) (cmd : String) (args : List String) :
    Except RunError Unit × List Event :=
  (match env.exec cmd args with
   | .spawnNotFound => .error (.cmdNotFound cmd)
   | .spawnErr m => .error (.cmdSpawnFailed cmd m)
   | .exited true _ _ _ => .ok ()
   | .exited false st _ se => .error (.cmdFailed cmd args st se),
   [.cmdEv cmd args])

/-- Embedding of check_flutter_installed (main.rs lines 45 to 65): fail
when which cannot resolve flutter on PATH, otherwise probe the tool by
running flutter with the version flag. -/
def check_flutter_installed (env : Env) : Except RunError Unit × List Event :=
  match env.flutterPath with
  | none => (.error .flutterNotOnPath, [])
  | some _ => run_command env "flutter" ["--version"]

/-- Embedding of update_build_yaml together with its read_yaml_file and
format_build_yaml collaborators (main.rs lines 134 to 138, 186 to 198 and
200 to 233): read build.yaml (a NotFound read is the missing
configuration), parse it, run one scan per registry entry, patch the
document, serialize it back over the file, and rewrite the file once more
with the cosmetic normalization of its freshly serialized text. File
creation and writing on the just-written path are modeled as succeeding;
no claim concerns their failure. -/
def update_build_yaml (env : Env) : Except RunError YVal × List Event :=
  match env.readBuildYaml with
  | .error .notFound => (.error .configNotFound, [.readFileEv buildYamlName])
  | .error (.other m) => (.error (.configIoErr m), [.readFileEv buildYamlName])
  | .ok content =>
    match env.parseYaml content with
    | .error m => (.error (.configParse m), [.readFileEv buildYamlName])
    | .ok yaml =>
      (.ok (update_document env.walk yaml),
       [.readFileEv buildYamlName,
        .scanEv .copyWith, .scanEv .jsonSerializable, .scanEv .hive,
        .writeFileEv buildYamlName (env.serializeYaml (update_document env.walk yaml)),
        .readFileEv buildYamlName,
        .writeFileEv buildYamlName
          (format_content env.workingDir (env.serializeYaml (update_document env.walk yaml)))])

/-- The four fixed pipeline invocations of main, in source order. -/
def pipelineCmds : List (String × List String) :=
  [("flutter", ["clean"]),
   ("flutter", ["pub", "upgrade"]),
   ("flutter", ["pub", "get"]),
   ("flutter", ["pub", "run", "build_runner", "build", "--delete-conflicting-outputs"])]

/-- Sequential execution with abort on the first failure, the shape of
the four chained run_command statements of main (lines 258 to 261). -/
def runSeq (env : Env) : List (String × List String) → Except RunError Unit × List Event
  | [] => (.ok (), [])
  | ca :: rest =>
    match run_command env ca.1 ca.2 with
    | (.ok _, tr) =>
      let r := runSeq env rest
      (r.1, tr ++ r.2)
    | (.error e, tr) => (.error e, tr)

/-- The post-update pipeline of main. -/
def runPipeline (env : Env) : Except RunError Unit × List Event :=
  runSeq env pipelineCmds

/-- The trace of a fully successful pipeline. -/
def pipeEvents : List Event :=
  pipelineCmds.map (fun ca => .cmdEv ca.1 ca.2)

/-- Embedding of main (main.rs lines 236 to 269): check the tool, update
the configuration, then run the pipeline; each failure propagates
immediately. -/
def mainRun (env : Env) : Except RunError Unit × List Event :=
  match check_flutter_installed env with
  | (.error e, tr) => (.error e, tr)
  | (.ok _, tr1) =>
    match update_build_yaml env with
    | (.error e, tr2) => (.error e, tr1 ++ tr2)
    | (.ok _, tr2) =>
      let r := runPipeline env
      (r.1, tr1 ++ tr2 ++ r.2)

/-! ## Supporting lemmas on the string primitives -/

/-- Transitivity of the boolean prefix test. -/
theorem prefixB_trans : ∀ (p q s : List Char),
    p.isPrefixOf q = true → q.isPrefixOf s = true → p.isPrefixOf s = true := by
  intro p
  induction p with
  | nil => intro q s _ _; simp [List.isPrefixOf]
  | cons a as ih =>
    intro q s h1 h2
    cases q with
    | nil => simp [List.isPrefixOf] at h1
    | cons b bs =>
      cases s with
      | nil => simp [List.isPrefixOf] at h2
      | cons c cs =>
        simp only [List.isPrefixOf, Bool.and_eq_true, beq_iff_eq] at h1 h2 ⊢
        exact ⟨h1.1.trans h2.1, ih bs cs h1.2 h2.2⟩

/-- Finding a pattern implies finding any boolean-prefix of it. -/
theorem subFind_mono : ∀ (s p1 p2 : List Char),
    p1.isPrefixOf p2 = true → (subFind s p2).isSome = true →
    (subFind s p1).isSome = true := by
  intro s
  induction s with
  | nil =>
    intro p1 p2 hp h2
    simp [subFind] at h2 ⊢
    subst h2
    simpa [List.isPrefixOf] using hp
  | cons c rest ih =>
    intro p1 p2 hp h2
    rw [subFind] at h2 ⊢
    by_cases hpre1 : p1.isPrefixOf (c :: rest) = true
    · simp [hpre1]
    · by_cases hpre2 : p2.isPrefixOf (c :: rest) = true
      · exact absurd (prefixB_trans p1 p2 (c :: rest) hp hpre2) hpre1
      · rw [if_neg hpre2] at h2
        rw [if_neg hpre1]
        have h3 : (subFind rest p2).isSome = true := by
          cases ho : subFind rest p2 <;> simp [ho] at h2 ⊢
        have h4 := ih p1 p2 hp h3
        cases ho : subFind rest p1 <;> simp [ho] at h4 ⊢

/-- C3: for every file path and content, the source resolver agrees with
the specification wording: when the content contains the marker
part-of-space and a terminating semicolon after it, the result is the
sibling path built from the trimmed extracted name; when the marker is
absent or unterminated, the path is returned unchanged. The source
additionally guards on a bare part-of containment test, which is implied
by the spaced marker being found. -/
theorem C3_resolver_agrees_with_spec (filePath content : String) :
    process_part_of filePath content = resolveSpec filePath content := by
  unfold process_part_of resolveSpec
  cases h : subFind content.data partOfSpaced with
  | none =>
    cases hc : containsSub content.data partOfBare <;> simp [h, hc]
  | some idx =>
    have hbare : containsSub content.data partOfBare = true := by
      have hsp : (subFind content.data partOfSpaced).isSome = true := by
        simp [h]
      exact subFind_mono content.data partOfBare partOfSpaced (by decide) hsp
    simp only [hbare, if_true, h]

/-! ## Supporting lemmas on replacement -/

/-- Replacing a single character by itself is the identity, at any fuel
at least the subject length. -/
theorem raf_single_id : ∀ (n : Nat) (s : List Char) (c : Char),
    s.length ≤ n → replaceAllFuel n s [c] [c] = s := by
  intro n
  induction n with
  | zero => intro s c _; rfl
  | succ n ih =>
    intro s c hlen
    cases s with
    | nil => rfl
    | cons c0 rest =>
      rw [replaceAllFuel]
      by_cases hc : c = c0
      · subst hc
        rw [if_pos (by simp [List.isPrefixOf])]
        simp only [List.length_cons] at hlen
        simp [ih rest c (by omega)]
      · rw [if_neg (by simp [List.isPrefixOf, hc])]
        simp only [List.length_cons] at hlen
        rw [ih rest c (by omega)]

/-- Replacing a single character by itself is the identity. -/
theorem replaceAll_single_id (s : List Char) (c : Char) :
    replaceAll s [c] [c] = s := by
  unfold replaceAll
  rw [if_neg (by simp)]
  exact raf_single_id s.length s c le_rfl

/-- Deleting occurrences of a pattern yields a sublist of the subject, at
any fuel. -/
theorem raf_sublist : ∀ (n : Nat) (s pat : List Char),
    List.Sublist (replaceAllFuel n s pat []) s := by
  intro n
  induction n with
  | zero => intro s pat; exact List.Sublist.refl s
  | succ n ih =>
    intro s pat
    cases s with
    | nil => exact List.Sublist.refl []
    | cons c rest =>
      rw [replaceAllFuel]
      by_cases hpre : pat.isPrefixOf (c :: rest) = true
      · rw [if_pos hpre]
        simp only [List.nil_append]
        exact (ih _ pat).trans (List.drop_sublist pat.length (c :: rest))
      · rw [if_neg hpre]
        exact List.Sublist.cons₂ c (ih rest pat)

/-- Deleting occurrences of a pattern yields a sublist of the subject. -/
theorem replaceAll_sublist (s pat : List Char) : List.Sublist (replaceAll s pat []) s := by
  unfold replaceAll
  by_cases hp : pat = []
  · rw [if_pos hp]
  · rw [if_neg hp]; exact raf_sublist s.length s pat

/-- Deleting a single character removes every occurrence of it, at fuel
at least the subject length. -/
theorem raf_removes_single : ∀ (n : Nat) (s : List Char) (c : Char),
    s.length ≤ n → c ∉ replaceAllFuel n s [c] [] := by
  intro n
  induction n with
  | zero =>
    intro s c hlen
    have : s = [] := List.length_eq_zero.mp (Nat.le_zero.mp hlen)
    subst this
    simp [replaceAllFuel]
  | succ n ih =>
    intro s c hlen
    cases s with
    | nil => simp [replaceAllFuel]
    | cons c0 rest =>
      rw [replaceAllFuel]
      simp only [List.length_cons] at hlen
      by_cases hc : c = c0
      · subst hc
        rw [if_pos (by simp [List.isPrefixOf])]
        simpa using ih rest c (by omega)
      · rw [if_neg (by simp [List.isPrefixOf, hc])]
        simp only [List.mem_cons, not_or]
        exact ⟨hc, ih rest c (by omega)⟩

/-- Deleting a single character removes every occurrence of it. -/
theorem replaceAll_removes_single (s : List Char) (c : Char) :
    c ∉ replaceAll s [c] [] := by
  unfold replaceAll
  rw [if_neg (by simp)]
  exact raf_removes_single s.length s c le_rfl

/-- Containment unfolds over a cons cell. -/
theorem containsSub_cons (c : Char) (rest pat : List Char) :
    containsSub (c :: rest) pat
      = (pat.isPrefixOf (c :: rest) || containsSub rest pat) := by
  unfold containsSub
  rw [subFind]
  by_cases hpre : pat.isPrefixOf (c :: rest) = true
  · simp [hpre]
  · rw [if_neg hpre]
    cases ho : subFind rest pat <;> simp [ho, hpre]

/-- Deleting a pattern that does not occur is the identity, at fuel at
least the subject length. -/
theorem raf_id_of_not_contains : ∀ (n : Nat) (s pat : List Char),
    containsSub s pat = false → replaceAllFuel n s pat [] = s := by
  intro n
  induction n with
  | zero => intro s pat _; rfl
  | succ n ih =>
    intro s pat h
    cases s with
    | nil => rfl
    | cons c rest =>
      rw [containsSub_cons] at h
      simp only [Bool.or_eq_false_iff] at h
      rw [replaceAllFuel, if_neg (by simp [h.1]), ih rest pat h.2]

/-- Deleting a pattern that does not occur is the identity. -/
theorem replaceAll_id_of_not_contains (s pat : List Char)
    (h : containsSub s pat = false) : replaceAll s pat [] = s := by
  unfold replaceAll
  by_cases hp : pat = []
  · rw [if_pos hp]
  · rw [if_neg hp]; exact raf_id_of_not_contains s.length s pat h

/-- A single character that is not a member does not occur as a
single-character pattern. -/
theorem not_containsSub_single (s : List Char) (c : Char) (h : c ∉ s) :
    containsSub s [c] = false := by
  induction s with
  | nil => rfl
  | cons c0 rest ih =>
    rw [containsSub_cons]
    simp only [List.mem_cons, not_or] at h
    simp [List.isPrefixOf, ih h.2, h.1]

/-- Deleting the single-quote pattern from a list without the quote is
the identity. -/
theorem replaceAll_quote_id (s : List Char) (h : squote ∉ s) :
    replaceAll s [squote] [] = s :=
  replaceAll_id_of_not_contains s [squote] (not_containsSub_single s squote h)

/-- C7 (amended): the cosmetic normalization pass is idempotent on every
content whose once-normalized form contains no further occurrence of the
working-directory-prefix pattern. Quote stripping and separator
normalization are unconditionally idempotent; only repeated prefix
stripping can make a second pass differ, which the hypothesis rules
out. -/
theorem C7_format_idempotent_unless_prefix_reappears (workingDir content : String)
    (h : containsSub (format_content workingDir content).data
          (workingDir.data ++ ['/']) = false) :
    format_content workingDir (format_content workingDir content)
      = format_content workingDir content := by
  unfold format_content at h ⊢
  rw [replaceAll_single_id] at h ⊢
  have hq1 : squote ∉ replaceAll content.data [squote] [] :=
    replaceAll_removes_single content.data squote
  have hq2 : squote ∉ replaceAll (replaceAll content.data [squote] [])
      (workingDir.data ++ ['/']) [] :=
    fun hm => hq1 ((replaceAll_sublist _ _).subset hm)
  rw [replaceAll_single_id]
  have hdata : (String.mk (replaceAll (replaceAll content.data [squote] [])
      (workingDir.data ++ ['/']) [])).data
      = replaceAll (replaceAll content.data [squote] [])
        (workingDir.data ++ ['/']) [] := rfl
  rw [hdata]
  rw [replaceAll_quote_id _ hq2]
  rw [replaceAll_id_of_not_contains _ _ (by rw [hdata] at h; exact h)]

/-- C7 counterexample: the pass is not idempotent in general. With
working directory the absolute path slash-a and content
slash-slash-a-slash-a-slash-x, one pass removes the single occurrence of
the prefix pattern and thereby forms a fresh occurrence, which a second
pass removes as well, so running the pass twice differs from running it
once. -/
theorem C7_counterexample :
    format_content "/a" (format_content "/a" "//a/a/x")
      ≠ format_content "/a" "//a/a/x" := by decide

/-- Witness instantiating the amended idempotence theorem at a concrete
working directory and content containing a quote character. -/
theorem C7_witness :
    format_content "/a" (format_content "/a" "xy") = format_content "/a" "xy" :=
  C7_format_idempotent_unless_prefix_reappears "/a" "xy" (by decide)

/-! ## Order properties of the string comparison -/

/-- The character-list order is total. -/
theorem lexLe_total : ∀ (a b : List Char), lexLe a b = true ∨ lexLe b a = true := by
  intro a
  induction a with
  | nil => intro b; left; rfl
  | cons x xs ih =>
    intro b
    cases b with
    | nil => right; rfl
    | cons y ys =>
      by_cases hxy : x = y
      · subst hxy
        rcases ih ys with h | h
        · left; simpa [lexLe] using h
        · right; simpa [lexLe] using h
      · have hyx : ¬y = x := fun he => hxy he.symm
        rcases lt_or_gt_of_ne hxy with hlt | hgt
        · left; simp [lexLe, hxy, hlt]
        · right; simp [lexLe, hyx, hgt]

/-- The character-list order is transitive. -/
theorem lexLe_trans : ∀ (a b c : List Char),
    lexLe a b = true → lexLe b c = true → lexLe a c = true := by
  intro a
  induction a with
  | nil => intro b c _ _; rfl
  | cons x xs ih =>
    intro b c h1 h2
    cases b with
    | nil => simp [lexLe] at h1
    | cons y ys =>
      cases c with
      | nil => simp [lexLe] at h2
      | cons z zs =>
        rw [lexLe] at h1 h2 ⊢
        by_cases hxy : x = y
        · subst hxy
          rw [if_pos rfl] at h1
          by_cases hyz : x = z
          · subst hyz
            rw [if_pos rfl] at h2 ⊢
            exact ih ys zs h1 h2
          · rw [if_neg hyz] at h2 ⊢
            exact h2
        · rw [if_neg hxy] at h1
          have hlt1 : x < y := of_decide_eq_true h1
          by_cases hyz : y = z
          · subst hyz
            rw [if_neg hxy]
            exact h1
          · have hlt2 : y < z := of_decide_eq_true (by rwa [if_neg hyz] at h2)
            have hxz : x < z := hlt1.trans hlt2
            rw [if_neg (ne_of_lt hxz), decide_eq_true hxz]

/-- The character-list order is antisymmetric. -/
theorem lexLe_antisymm : ∀ (a b : List Char),
    lexLe a b = true → lexLe b a = true → a = b := by
  intro a
  induction a with
  | nil =>
    intro b _ h2
    cases b with
    | nil => rfl
    | cons y ys => simp [lexLe] at h2
  | cons x xs ih =>
    intro b h1 h2
    cases b with
    | nil => simp [lexLe] at h1
    | cons y ys =>
      rw [lexLe] at h1 h2
      by_cases hxy : x = y
      · subst hxy
        rw [if_pos rfl] at h1 h2
        rw [ih ys h1 h2]
      · rw [if_neg hxy] at h1
        rw [if_neg (fun he => hxy he.symm)] at h2
        exact absurd (of_decide_eq_true h2) (lt_asymm (of_decide_eq_true h1))

/-- Two strings with equal character data are equal. -/
theorem string_ext (a b : String) (h : a.data = b.data) : a = b :=
  congrArg String.mk h

instance : IsTotal String strLeP :=
  ⟨fun a b => lexLe_total a.data b.data⟩

instance : IsTrans String strLeP :=
  ⟨fun a b c h1 h2 => lexLe_trans a.data b.data c.data h1 h2⟩

instance : IsAntisymm String strLeP :=
  ⟨fun a b h1 h2 => string_ext a b (lexLe_antisymm a.data b.data h1 h2)⟩

/-- Sorting is invariant under permutation of the input: sorted
permutations coincide for a total, transitive, antisymmetric order. -/
theorem sortStrings_perm_eq (l1 l2 : List String) (h : l1.Perm l2) :
    sortStrings l1 = sortStrings l2 :=
  List.eq_of_perm_of_sorted
    ((List.perm_insertionSort strLeP l1).trans
      (h.trans (List.perm_insertionSort strLeP l2).symm))
    (List.sorted_insertionSort strLeP l1)
    (List.sorted_insertionSort strLeP l2)

/-- The lookup of each registered kind succeeds, so the scan never takes
the unsupported-kind error branch. -/
theorem find_files_eq (t : AnnotationType) (walk : List WalkEntry) :
    find_files_with_annotation t walk = .ok (scanSorted t walk) := by
  cases t <;> rfl

/-- C4: every list the scan returns is lexicographically sorted over the
quoted strings (the quote character participates in the comparison, which
is the code-point order strLeP), and the result is invariant under any
permutation of the traversal enumeration order. -/
theorem C4_scan_result_sorted (t : AnnotationType) (walk walk2 : List WalkEntry)
    (l : List String)
    (h : find_files_with_annotation t walk = .ok l)
    (hperm : walk.Perm walk2) :
    l.Sorted strLeP ∧ find_files_with_annotation t walk2 = .ok l := by
  rw [find_files_eq] at h
  simp only [Except.ok.injEq] at h
  subst h
  constructor
  · unfold scanSorted
    exact List.sorted_insertionSort strLeP _
  · rw [find_files_eq]
    unfold scanSorted scanFiles
    exact congrArg Except.ok
      (sortStrings_perm_eq _ _ ((hperm.symm.filterMap _).map quoteStr))

/-- Witness for C4 at a concrete traversal whose enumeration order is
reversed: the result is the same sorted quoted list. -/
theorem C4_witness :
    (["\"wd/a.dart\"", "\"wd/b.dart\""] : List String).Sorted strLeP
    ∧ find_files_with_annotation .hive
        [.file "wd/a.dart" (.ok "@HiveType  ("), .file "wd/b.dart" (.ok "@HiveType(")]
      = .ok ["\"wd/a.dart\"", "\"wd/b.dart\""] :=
  C4_scan_result_sorted .hive
    [.file "wd/b.dart" (.ok "@HiveType("), .file "wd/a.dart" (.ok "@HiveType  (")]
    [.file "wd/a.dart" (.ok "@HiveType  ("), .file "wd/b.dart" (.ok "@HiveType(")]
    ["\"wd/a.dart\"", "\"wd/b.dart\""] (by rfl) (by decide)

/-- C1 (amended): the scan never fails, whatever the traversal holds; an
iteration failure among the walk items, the model of walkdir failing on
an entry or on the root itself, is silently dropped by the filter over
e.ok() and produces no warning; a dart-extension entry whose read fails
is skipped with one logged warning; neither kind of per-entry failure is
ever propagated as an error of the scan. -/
theorem C1_scan_failure_policy (t : AnnotationType) (walk : List WalkEntry)
    (m p e : String) (hd : hasDartExt p = true) :
    find_files_with_annotation t walk = .ok (scanSorted t walk)
    ∧ find_files_with_annotation t (.iterErr m :: walk)
        = find_files_with_annotation t walk
    ∧ scanWarnings (.iterErr m :: walk) = scanWarnings walk
    ∧ find_files_with_annotation t (.file p (.error e) :: walk)
        = find_files_with_annotation t walk
    ∧ scanWarnings (.file p (.error e) :: walk)
        = warnMsg p e :: scanWarnings walk := by
  refine ⟨find_files_eq t walk, ?_, ?_, ?_, ?_⟩
  · rw [find_files_eq, find_files_eq]
    unfold scanSorted scanFiles
    simp [entryHit]
  · unfold scanWarnings
    simp
  · rw [find_files_eq, find_files_eq]
    unfold scanSorted scanFiles
    simp [entryHit, hd]
  · unfold scanWarnings
    simp [hd]

/-- C1 counterexample to the claim as stated: a traversal consisting of a
single iteration failure, the model of a root directory that cannot be
traversed, still yields a successful empty scan instead of an IO error,
and logs no warning for the failure. -/
theorem C1_counterexample :
    find_files_with_annotation .hive [.iterErr "permission denied"] = .ok []
    ∧ scanWarnings [.iterErr "permission denied"] = [] :=
  ⟨rfl, rfl⟩

/-- Witness instantiating the amended scan failure-policy theorem at
concrete inputs. -/
theorem C1_witness :
    find_files_with_annotation .hive [] = .ok (scanSorted .hive [])
    ∧ find_files_with_annotation .hive [.iterErr "boom"]
        = find_files_with_annotation .hive []
    ∧ scanWarnings [.iterErr "boom"] = scanWarnings []
    ∧ find_files_with_annotation .hive [.file "wd/x.dart" (.error "unreadable")]
        = find_files_with_annotation .hive []
    ∧ scanWarnings [.file "wd/x.dart" (.error "unreadable")]
        = warnMsg "wd/x.dart" "unreadable" :: scanWarnings [] :=
  C1_scan_failure_policy .hive [] "boom" "wd/x.dart" "unreadable" rfl

/-! ## Supporting lemmas on document navigation -/

/-- Updating the first binding of a present key makes lookup return the
new value. -/
theorem lookup_updFirst (kvs : List (String × YVal)) (k : String) (nv w : YVal)
    (h : lookupKey kvs k = some w) :
    lookupKey (updFirst kvs k nv) k = some nv := by
  induction kvs with
  | nil => simp [lookupKey] at h
  | cons kv rest ih =>
    obtain ⟨k0, v0⟩ := kv
    by_cases hk : k0 = k
    · simp [lookupKey, updFirst, hk]
    · rw [lookupKey, if_neg hk] at h
      rw [updFirst, if_neg hk, lookupKey, if_neg hk]
      exact ih h

/-- Updating one key leaves lookups of other keys unchanged. -/
theorem lookup_updFirst_ne (kvs : List (String × YVal)) (k : String) (nv : YVal)
    (j : String) (hne : j ≠ k) :
    lookupKey (updFirst kvs k nv) j = lookupKey kvs j := by
  induction kvs with
  | nil => rfl
  | cons kv rest ih =>
    obtain ⟨k0, v0⟩ := kv
    by_cases hk : k0 = k
    · subst hk
      rw [updFirst, if_pos rfl, lookupKey, lookupKey,
        if_neg (fun he => hne he.symm), if_neg (fun he => hne he.symm)]
    · rw [updFirst, if_neg hk]
      by_cases hj : k0 = j
      · rw [lookupKey, if_pos hj, lookupKey, if_pos hj]
      · rw [lookupKey, if_neg hj, lookupKey, if_neg hj]
        exact ih

/-- Re-binding a present key to the value it already has is the
identity. -/
theorem updFirst_self (kvs : List (String × YVal)) (k : String) (w : YVal)
    (h : lookupKey kvs k = some w) : updFirst kvs k w = kvs := by
  induction kvs with
  | nil => rfl
  | cons kv rest ih =>
    obtain ⟨k0, v0⟩ := kv
    by_cases hk : k0 = k
    · rw [lookupKey, if_pos hk] at h
      rw [updFirst, if_pos hk, Option.some.injEq] at *
      rw [h]
    · rw [lookupKey, if_neg hk] at h
      rw [updFirst, if_neg hk, ih h]

/-- When some segment of the path fails to resolve, the update leaves the
document unchanged: the silently-skip policy. -/
theorem updateAt_absent : ∀ (path : List String) (v nv : YVal),
    getPath v path = none → updateAt path v nv = v := by
  intro path
  induction path with
  | nil => intro v nv h; simp [getPath] at h
  | cons k rest ih =>
    intro v nv h
    cases v with
    | map kvs =>
      cases hl : lookupKey kvs k with
      | none => simp [updateAt, hl]
      | some child =>
        simp only [getPath, hl] at h
        simp only [updateAt, hl]
        rw [ih child nv h, updFirst_self kvs k child hl]
    | null => rfl
    | bool b => rfl
    | num lit => rfl
    | str s => rfl
    | seq xs => rfl

/-- When the full path resolves, the update replaces the value at its
end. -/
theorem updateAt_present : ∀ (path : List String) (v nv w : YVal),
    getPath v path = some w → getPath (updateAt path v nv) path = some nv := by
  intro path
  induction path with
  | nil => intro v nv w _; simp [updateAt, getPath]
  | cons k rest ih =>
    intro v nv w h
    cases v with
    | map kvs =>
      cases hl : lookupKey kvs k with
      | none => simp [getPath, hl] at h
      | some child =>
        simp only [getPath, hl] at h
        simp only [updateAt, hl, getPath, lookup_updFirst kvs k _ child hl]
        exact ih child nv w h
    | null => simp [getPath] at h
    | bool b => simp [getPath] at h
    | num lit => simp [getPath] at h
    | str s => simp [getPath] at h
    | seq xs => simp [getPath] at h

/-- Frame property of the path update: any path that neither extends nor
is extended by the updated path reads the same value afterwards. -/
theorem updateAt_frame : ∀ (path q : List String) (v nv : YVal),
    path.isPrefixOf q = false → q.isPrefixOf path = false →
    getPath (updateAt path v nv) q = getPath v q := by
  intro path
  induction path with
  | nil => intro q v nv h1 _; simp [List.isPrefixOf] at h1
  | cons k rest ih =>
    intro q v nv h1 h2
    cases q with
    | nil => simp [List.isPrefixOf] at h2
    | cons j qs =>
      cases v with
      | map kvs =>
        cases hl : lookupKey kvs k with
        | none => simp [updateAt, hl]
        | some child =>
          by_cases hjk : j = k
          · subst hjk
            simp only [List.isPrefixOf, beq_self_eq_true, Bool.true_and] at h1 h2
            simp only [updateAt, hl, getPath, lookup_updFirst kvs j _ child hl]
            exact ih qs child nv h1 h2
          · simp only [updateAt, hl, getPath, lookup_updFirst_ne kvs k _ j hjk]
      | null => rfl
      | bool b => rfl
      | num lit => rfl
      | str s => rfl
      | seq xs => rfl

/-- C5: for every registered annotation kind, the synchronizer update of
that kind silently leaves the document unchanged when any segment of the
nested generate_for path is absent (no error is raised anywhere in this
total function and no section is created), and replaces the value at the
path with the freshly scanned sorted quoted list when the full path is
present. -/
theorem C5_generate_for_update (p : AnnotationType × AnnotationPattern)
    (_hmem : p ∈ get_patterns) (walk : List WalkEntry) (yaml w : YVal) :
    (getPath yaml (targetPath p.2.builder_key) = none →
      updateKindPair walk yaml p = yaml)
    ∧ (getPath yaml (targetPath p.2.builder_key) = some w →
      getPath (updateKindPair walk yaml p) (targetPath p.2.builder_key)
        = some (.seq ((scanSorted p.1 walk).map .str))) := by
  simp only [updateKindPair, find_files_eq]
  constructor
  · intro h
    exact updateAt_absent _ yaml _ h
  · intro h
    exact updateAt_present _ yaml _ w h

/-- Sample document without the builders structure. -/
def yamlAbsent : YVal := .map [("name", .str "app")]

/-- Sample document carrying a hive generate_for list. -/
def yamlHive : YVal :=
  .map [("targets", .map [("$default", .map [("builders",
    .map [("hive_generator", .map [("generate_for", .seq [.str "old"])])])])])]

/-- The registry entry for the hive kind. -/
def hivePair : AnnotationType × AnnotationPattern :=
  (.hive, ⟨"@HiveType", "hive_generator"⟩)

/-- Witness applying the update theorem on both branches: an absent path
is skipped without change, a present path is replaced by the scanned
list. -/
theorem C5_witness :
    updateKindPair [] yamlAbsent hivePair = yamlAbsent
    ∧ getPath (updateKindPair [] yamlHive hivePair) (targetPath "hive_generator")
        = some (.seq ((scanSorted .hive []).map .str)) :=
  ⟨(C5_generate_for_update hivePair (by decide) [] yamlAbsent .null).1 rfl,
   (C5_generate_for_update hivePair (by decide) [] yamlHive (.seq [.str "old"])).2 rfl⟩

/-- One update step preserves every path that is prefix-incomparable with
its target path. -/
theorem updateKindPair_frame (walk : List WalkEntry) (yaml : YVal)
    (p : AnnotationType × AnnotationPattern) (q : List String)
    (h1 : (targetPath p.2.builder_key).isPrefixOf q = false)
    (h2 : q.isPrefixOf (targetPath p.2.builder_key) = false) :
    getPath (updateKindPair walk yaml p) q = getPath yaml q := by
  simp only [updateKindPair, find_files_eq]
  exact updateAt_frame _ q yaml _ h1 h2

/-- C6: the full update touches only the generate_for paths of the three
known builder keys: every path that neither extends nor is extended by
one of those three paths reads the same value in the updated document as
in the loaded one. -/
theorem C6_update_frame (walk : List WalkEntry) (yaml : YVal) (q : List String)
    (h : ∀ key ∈ ["copy_with_extension_gen", "json_serializable", "hive_generator"],
      (targetPath key).isPrefixOf q = false ∧ q.isPrefixOf (targetPath key) = false) :
    getPath (update_document walk yaml) q = getPath yaml q := by
  have h1 := h "copy_with_extension_gen" (by simp)
  have h2 := h "json_serializable" (by simp)
  have h3 := h "hive_generator" (by simp)
  simp only [update_document, get_patterns, List.foldl]
  rw [updateKindPair_frame _ _ _ _ h3.1 h3.2,
    updateKindPair_frame _ _ _ _ h2.1 h2.2,
    updateKindPair_frame _ _ _ _ h1.1 h1.2]

/-- Witness for the frame theorem: an unrelated top-level field keeps its
value across the full update. -/
theorem C6_witness :
    getPath (update_document [] (YVal.map [("name", .str "app"), ("targets", .map [])]))
        ["name"]
      = getPath (YVal.map [("name", .str "app"), ("targets", .map [])]) ["name"] :=
  C6_update_frame [] (YVal.map [("name", .str "app"), ("targets", .map [])])
    ["name"] (by decide)

/-! ## Runtime environments used as concrete inputs -/

/-- Fully healthy environment: flutter resolves, every command exits
successfully, build.yaml reads and parses (to an empty document), and the
traversal is empty. -/
def envBase : Env where
  flutterPath := some "/usr/bin/flutter"
  exec := fun _ _ => .exited true "exit status: 0" "" ""
  readBuildYaml := .ok "targets:"
  parseYaml := fun _ => .ok .null
  serializeYaml := fun _ => "serialized"
  walk := []
  workingDir := "/home/user/app"

/-- Environment whose PATH holds no flutter. -/
def envNoFlutter : Env := { envBase with flutterPath := none }

/-- Environment whose working directory holds no build.yaml. -/
def envNoCfg : Env := { envBase with readBuildYaml := .error .notFound }

/-- C9: when the build tool is not found on PATH, the run fails
immediately with an empty event trace; in particular build.yaml is
neither read nor written, and nothing is scanned or spawned. -/
theorem C9_tool_missing_fails_first (env : Env) (h : env.flutterPath = none) :
    mainRun env = (.error .flutterNotOnPath, []) := by
  simp [mainRun, check_flutter_installed, h]

/-- Witness for the missing-tool theorem at a concrete environment. -/
theorem C9_witness : mainRun envNoFlutter = (.error .flutterNotOnPath, []) :=
  C9_tool_missing_fails_first envNoFlutter rfl

/-- C2 (amended): when build.yaml is absent and the upfront availability
probe succeeded, the run fails with the configuration-not-found error,
performs zero filesystem scans and zero writes, and the only external
command executed is the single upfront version probe, which precedes the
configuration read. -/
theorem C2_config_missing (env : Env)
    (h : env.readBuildYaml = .error .notFound)
    (hc : (check_flutter_installed env).1 = .ok ()) :
    (mainRun env).1 = .error .configNotFound
    ∧ (mainRun env).2 = [.cmdEv "flutter" ["--version"], .readFileEv buildYamlName]
    ∧ (mainRun env).2.countP isScanEv = 0
    ∧ (mainRun env).2.countP isWriteEv = 0
    ∧ (mainRun env).2.countP isCmdEv = 1 := by
  cases hfp : env.flutterPath with
  | none =>
    rw [check_flutter_installed, hfp] at hc
    exact absurd hc (by simp)
  | some fp =>
    have hck : check_flutter_installed env
        = (.ok (), [.cmdEv "flutter" ["--version"]]) := by
      simp only [check_flutter_installed, hfp, run_command] at hc ⊢
      cases hex : env.exec "flutter" ["--version"] with
      | exited success st so se =>
        cases success
        · simp [hex] at hc
        · simp [hex]
      | spawnNotFound => simp [hex] at hc
      | spawnErr msg0 => simp [hex] at hc
    have hupd : update_build_yaml env
        = (.error .configNotFound, [.readFileEv buildYamlName]) := by
      simp [update_build_yaml, h]
    have hmain : mainRun env
        = (.error .configNotFound,
           [.cmdEv "flutter" ["--version"], .readFileEv buildYamlName]) := by
      simp [mainRun, hck, hupd]
    rw [hmain]
    exact ⟨rfl, rfl, rfl, rfl, rfl⟩

/-- C2 counterexample to the claim as stated: with build.yaml absent and
a healthy tool, the run still performs one external command invocation,
the upfront version probe, so the run does not perform zero external
command invocations. -/
theorem C2_counterexample :
    envNoCfg.readBuildYaml = .error .notFound
    ∧ (mainRun envNoCfg).2.countP isCmdEv = 1
    ∧ ¬ (mainRun envNoCfg).2.countP isCmdEv = 0 :=
  ⟨rfl, rfl, by decide⟩

/-- Witness for the amended configuration-missing theorem at a concrete
environment. -/
theorem C2_witness :
    (mainRun envNoCfg).1 = .error .configNotFound
    ∧ (mainRun envNoCfg).2 = [.cmdEv "flutter" ["--version"], .readFileEv buildYamlName]
    ∧ (mainRun envNoCfg).2.countP isScanEv = 0
    ∧ (mainRun envNoCfg).2.countP isWriteEv = 0
    ∧ (mainRun envNoCfg).2.countP isCmdEv = 1 :=
  C2_config_missing envNoCfg rfl rfl

/-- C10: whenever build.yaml reads and parses successfully, the update
unconditionally performs the scans, writes the full serialized document
back, and rewrites the file once more with the cosmetic normalization of
the serialized text; the trace carries exactly two writes of build.yaml
with no hypothesis whatsoever on the document shape, in particular also
when no generate_for path exists anywhere in it. -/
theorem C10_rewrite_unconditional (env : Env) (content : String) (yaml : YVal)
    (h : env.readBuildYaml = .ok content) (hp : env.parseYaml content = .ok yaml) :
    update_build_yaml env =
      (.ok (update_document env.walk yaml),
       [.readFileEv buildYamlName,
        .scanEv .copyWith, .scanEv .jsonSerializable, .scanEv .hive,
        .writeFileEv buildYamlName (env.serializeYaml (update_document env.walk yaml)),
        .readFileEv buildYamlName,
        .writeFileEv buildYamlName
          (format_content env.workingDir
            (env.serializeYaml (update_document env.walk yaml)))])
    ∧ (update_build_yaml env).2.countP isWriteEv = 2 := by
  have hu : update_build_yaml env =
      (.ok (update_document env.walk yaml),
       [.readFileEv buildYamlName,
        .scanEv .copyWith, .scanEv .jsonSerializable, .scanEv .hive,
        .writeFileEv buildYamlName (env.serializeYaml (update_document env.walk yaml)),
        .readFileEv buildYamlName,
        .writeFileEv buildYamlName
          (format_content env.workingDir
            (env.serializeYaml (update_document env.walk yaml)))]) := by
    simp [update_build_yaml, h, hp]
  refine ⟨hu, ?_⟩
  rw [hu]
  rfl

/-- Witness for the unconditional-rewrite theorem: the parsed document is
null, containing no generate_for path at all, and the file is still
written twice. -/
theorem C10_witness : (update_build_yaml envBase).2.countP isWriteEv = 2 :=
  (C10_rewrite_unconditional envBase "targets:" .null rfl rfl).2

/-- The pipeline step at an index, outside the range a harmless dummy. -/
def pipeStep (j : Nat) : String × List String :=
  pipelineCmds.getD j ("", [])

/-- A command whose spawn succeeds with a success exit status. -/
def execOk (env : Env) (ca : String × List String) : Prop :=
  ∃ st so se, env.exec ca.1 ca.2 = .exited true st so se

/-- C8: after a successful configuration update, main runs exactly the
four fixed build-tool invocations sequentially in source order; when
every step exits successfully all four are spawned in order and the run
succeeds; when a step exits unsuccessfully after successful earlier
steps, the run aborts at that step with an error carrying the captured
standard error, the trace holding exactly the steps up to and including
the failing one; and the whole-run trace after a successful check and
update is the check trace, then the update trace, then the pipeline
trace. -/
theorem C8_pipeline (env : Env) :
    ((∀ ca ∈ pipelineCmds, execOk env ca) → runPipeline env = (.ok (), pipeEvents))
    ∧ (∀ j st so se, j < pipelineCmds.length →
        (∀ i, i < j → execOk env (pipeStep i)) →
        env.exec (pipeStep j).1 (pipeStep j).2 = .exited false st so se →
        runPipeline env =
          (.error (.cmdFailed (pipeStep j).1 (pipeStep j).2 st se),
           (pipelineCmds.take (j + 1)).map (fun ca => .cmdEv ca.1 ca.2)))
    ∧ (∀ tr1 y tr2, check_flutter_installed env = (.ok (), tr1) →
        update_build_yaml env = (.ok y, tr2) →
        mainRun env = ((runPipeline env).1, tr1 ++ tr2 ++ (runPipeline env).2)) := by
  refine ⟨?_, ?_, ?_⟩
  · intro hall
    obtain ⟨st1, so1, se1, h1⟩ := hall ("flutter", ["clean"]) (by simp [pipelineCmds])
    obtain ⟨st2, so2, se2, h2⟩ := hall ("flutter", ["pub", "upgrade"])
      (by simp [pipelineCmds])
    obtain ⟨st3, so3, se3, h3⟩ := hall ("flutter", ["pub", "get"])
      (by simp [pipelineCmds])
    obtain ⟨st4, so4, se4, h4⟩ := hall
      ("flutter", ["pub", "run", "build_runner", "build", "--delete-conflicting-outputs"])
      (by simp [pipelineCmds])
    simp [runPipeline, pipelineCmds, runSeq, run_command, h1, h2, h3, h4, pipeEvents]
  · intro j st so se hj hpre hfail
    simp only [pipelineCmds, List.length_cons, List.length_nil] at hj
    interval_cases j
    · simp only [pipeStep, pipelineCmds, List.getD_cons_zero, List.getD_cons_succ] at hfail
      simp [runPipeline, pipelineCmds, runSeq, run_command, hfail, pipeStep]
    · obtain ⟨st1, so1, se1, h1⟩ := hpre 0 (by omega)
      simp only [pipeStep, pipelineCmds, List.getD_cons_zero, List.getD_cons_succ] at h1 hfail
      simp [runPipeline, pipelineCmds, runSeq, run_command, h1, hfail, pipeStep]
    · obtain ⟨st1, so1, se1, h1⟩ := hpre 0 (by omega)
      obtain ⟨st2, so2, se2, h2⟩ := hpre 1 (by omega)
      simp only [pipeStep, pipelineCmds, List.getD_cons_zero, List.getD_cons_succ] at h1 h2 hfail
      simp [runPipeline, pipelineCmds, runSeq, run_command, h1, h2, hfail, pipeStep]
    · obtain ⟨st1, so1, se1, h1⟩ := hpre 0 (by omega)
      obtain ⟨st2, so2, se2, h2⟩ := hpre 1 (by omega)
      obtain ⟨st3, so3, se3, h3⟩ := hpre 2 (by omega)
      simp only [pipeStep, pipelineCmds, List.getD_cons_zero, List.getD_cons_succ] at h1 h2 h3 hfail
      simp [runPipeline, pipelineCmds, runSeq, run_command, h1, h2, h3, hfail, pipeStep]
  · intro tr1 y tr2 hc hu
    simp [mainRun, hc, hu]

/-- Witness running the pipeline in the healthy environment: all four
fixed invocations execute in order and the pipeline succeeds. -/
theorem C8_witness : runPipeline envBase = (.ok (), pipeEvents) :=
  (C8_pipeline envBase).1 (fun _ _ => ⟨"exit status: 0", "", "", rfl⟩)

end CodegenOptimizer
